import Mathlib

/-!
Verification of the privacy-oracle-agent daemon core (JavaScript) against its
natural-language specification.  The JavaScript modules under
`src/privacy-oracle-agent/src` are shallowly embedded:

* JS strings are `List Char`;
* JS numbers that the code uses as integers (timestamps, counters,
  milliseconds) are `Nat`/`Int`; the two places where genuine floating-point
  behaviour matters are modelled explicitly (`f64RoundInt` for the
  int64-to-double conversion done by the SQLite driver, `Rat` with a JS
  `Math.round` for the metric divisions);
* SQLite tables are Lean lists; `INSERT OR REPLACE` on a primary key is
  modelled as remove-then-append; JSON (de)serialisation of the fixed record
  shapes used by the code is modelled as the identity on those shapes;
* `undefined`/`null`/falsy-default expressions (`a || b`, `a?.f`) are
  modelled with `Option` and explicit falsy checks (`0` and `""` are falsy).
-/

/-- JS strings are modelled as lists of characters. -/
abbrev JStr := List Char

/-- JS `a || b` on numeric values: `b` when `a` is `undefined`/`null` or `0`. -/
def jsOrI (a b : Option Int) : Option Int :=
  match a with
  | some v => if v = 0 then b else some v
  | none => b

/-- JS `a || b` on string values: `b` when `a` is `undefined`/`null` or `""`. -/
def jsOrS (a b : Option JStr) : Option JStr :=
  match a with
  | some v => if v = [] then b else some v
  | none => b

/-- JS addition where an `undefined` operand poisons the result (`NaN`). -/
def jsAdd (a b : Option Int) : Option Int :=
  match a, b with
  | some x, some y => some (x + y)
  | _, _ => none

/-- JS multiplication where an `undefined` operand poisons the result (`NaN`). -/
def jsMul (a b : Option Int) : Option Int :=
  match a, b with
  | some x, some y => some (x * y)
  | _, _ => none

/-- Value of a list of decimal digit characters, as JS `parseInt` computes it. -/
def digitsToNat (ds : List Char) : Nat :=
  ds.foldl (fun a c => a * 10 + (c.toNat - 48)) 0

/-- The argument object accepted by `MarketStore.saveMarket` (market-store.js).
Optional fields are the ones the call sites may leave `undefined`. -/
structure MarketRecord where
  address : JStr
  question : JStr
  category : Option JStr := none
  categoryKey : Option JStr := none
  creationTime : Option Int := none
  creationSignature : Option JStr := none
  initialLiquidity : Option JStr := none
  durationDays : Option Int := none
  endTime : Option Int := none
  status : Option JStr := none
  outcome : Option JStr := none
  volume : Option JStr := none
  resolutionTime : Option Int := none
  metadata : JStr := []
deriving DecidableEq

/-- One row of the `markets` table (column per field, market-store.js schema).
`none` models SQL `NULL`. `metadata` is the serialised JSON text column. -/
structure MarketRow where
  address : JStr
  question : JStr
  category : Option JStr := none
  categoryKey : Option JStr := none
  creationTime : Option Int := none
  creationSignature : Option JStr := none
  initialLiquidity : Option JStr := none
  durationDays : Option Int := none
  endTime : Option Int := none
  status : Option JStr := none
  outcome : Option JStr := none
  volume : Option JStr := none
  resolutionTime : Option Int := none
  metadata : JStr := []
deriving DecidableEq

/-- The persisted daemon state written by `PrivacyOracleDaemon.saveState`
(emitter.js): iteration count, last run time, and the config subset. -/
structure DaemonStateRec where
  iterationCount : Nat
  lastRunTime : Int
  schedule : JStr
  marketsPerRound : Nat
deriving DecidableEq

/-- The three SQLite tables owned by `MarketStore` (market-store.js):
`markets`, `daemon_state` (key, JSON value, updated_at) and
`webhook_events` (kept opaque here; no verified claim inspects them). -/
structure MarketStore where
  markets : List MarketRow
  daemonState : List (JStr × DaemonStateRec × Int)
  webhookEvents : List JStr
deriving DecidableEq

/-- The row written by `saveMarket` for the input `record` at time `now`
(`now` stands for the `Date.now()` fallback used when `creationTime` is
falsy). Mirrors market-store.js lines 72-97 including the `||` defaults and
the recomputation `endTime || creationTime + durationDays*24*60*60*1000`. -/
def rowOfRecord (now : Int) (r : MarketRecord) : MarketRow :=
  { address := r.address
    question := r.question
    category := jsOrS r.category none
    categoryKey := jsOrS r.categoryKey none
    creationTime := jsOrI r.creationTime (some now)
    creationSignature := jsOrS r.creationSignature none
    initialLiquidity := jsOrS r.initialLiquidity none
    durationDays := jsOrI r.durationDays none
    endTime := jsOrI r.endTime (jsAdd r.creationTime (jsMul r.durationDays (some (24 * 60 * 60 * 1000))))
    status := jsOrS r.status (some (("active").data))
    outcome := jsOrS r.outcome none
    volume := jsOrS r.volume none
    resolutionTime := jsOrI r.resolutionTime none
    metadata := r.metadata }

/-- `MarketStore.saveMarket`: `INSERT OR REPLACE` keyed on the `address`
primary key — any existing row with that address is removed and the fresh
row appended. -/
def saveMarket (s : MarketStore) (now : Int) (r : MarketRecord) : MarketStore :=
  { s with markets := s.markets.filter (fun row => !(row.address == r.address)) ++ [rowOfRecord now r] }

/-- `MarketStore.getMarket`: `SELECT * FROM markets WHERE address = ?`,
`null` when absent. -/
def getMarket (s : MarketStore) (a : JStr) : Option MarketRow :=
  s.markets.find? (fun row => row.address == a)

/-- Helper: a `find?` whose predicate implies the filtering predicate passes
through the filter unchanged. -/
theorem find?_filter_of_imp {α : Type} (l : List α) (p q : α → Bool)
    (h : ∀ x, q x = true → p x = true) :
    List.find? q (l.filter p) = List.find? q l := by
  induction l with
  | nil => rfl
  | cons a l ih =>
    by_cases hp : p a = true
    · rw [List.filter_cons_of_pos hp]
      by_cases hq : q a = true
      · simp [List.find?_cons, hq]
      · simp only [List.find?_cons, Bool.not_eq_true] at hq ⊢
        simp [hq, ih]
    · have hq : q a = false := by
        cases hqa : q a
        · rfl
        · exact absurd (h a hqa) hp
      rw [List.filter_cons_of_neg (by simpa using hp)]
      simp only [List.find?_cons, hq]
      exact ih

/-- Read-over-upsert for the markets table: after `saveMarket`, looking up the
saved address returns exactly the freshly stored row and every other address
is untouched. -/
theorem getMarket_saveMarket (s : MarketStore) (now : Int) (r : MarketRecord) (a : JStr) :
    getMarket (saveMarket s now r) a =
      if a = r.address then some (rowOfRecord now r) else getMarket s a := by
  unfold getMarket saveMarket
  rw [List.find?_append]
  by_cases h : a = r.address
  · have hnone : List.find? (fun row => row.address == a)
        (s.markets.filter (fun row => !(row.address == r.address))) = none := by
      rw [List.find?_eq_none]
      intro x hx
      have := (List.mem_filter.mp hx).2
      simp_all
    rw [hnone]
    simp [rowOfRecord, h]
  · have hlast : List.find? (fun row => row.address == a) [rowOfRecord now r] = none := by
      simp [rowOfRecord]
      exact fun hc => h hc.symm
    rw [hlast, if_neg h]
    rw [find?_filter_of_imp]
    · simp
    · intro x hx
      simp only [beq_iff_eq] at hx
      simp [hx, h]

/-- Helper: filtering for an address immediately after filtering it out
yields nothing. -/
theorem filter_addr_of_filter_out (l : List MarketRow) (a : JStr) :
    (l.filter (fun row => !(row.address == a))).filter (fun row => row.address == a) = [] := by
  rw [List.filter_filter, List.filter_eq_nil_iff]
  intro x hx
  cases hxa : (x.address == a) <;> simp [hxa]

/-- C2: `saveMarket` is an upsert by `address`.  Saving any record and then
re-saving with the same address leaves exactly one row for that address,
`getMarket` returns the question of the latest save, and a retried identical
write changes nothing observable (and still leaves exactly one row). -/
theorem saveMarket_upsert_idempotent (s : MarketStore) (now now' : Int)
    (r1 r2 : MarketRecord) (h : r1.address = r2.address) :
    (((saveMarket (saveMarket s now r1) now' r2).markets.filter
        (fun row => row.address == r2.address)).length = 1) ∧
    (getMarket (saveMarket (saveMarket s now r1) now' r2) r2.address).map (fun m => m.question)
      = some r2.question ∧
    getMarket (saveMarket (saveMarket (saveMarket s now r1) now' r2) now' r2) r2.address
      = getMarket (saveMarket (saveMarket s now r1) now' r2) r2.address ∧
    (((saveMarket (saveMarket (saveMarket s now r1) now' r2) now' r2).markets.filter
        (fun row => row.address == r2.address)).length = 1) := by
  refine ⟨?_, ?_, ?_, ?_⟩
  · show (((saveMarket (saveMarket s now r1) now' r2).markets).filter _).length = 1
    unfold saveMarket
    rw [List.filter_append, filter_addr_of_filter_out]
    simp [rowOfRecord]
  · rw [getMarket_saveMarket, if_pos rfl]
    rfl
  · rw [getMarket_saveMarket, getMarket_saveMarket, if_pos rfl, if_pos rfl]
  · unfold saveMarket
    rw [List.filter_append, filter_addr_of_filter_out]
    simp [rowOfRecord]

/-- C2 witness: concrete double save at address "x" with an updated question. -/
theorem saveMarket_upsert_idempotent_witness :
    (({ address := ("x").data, question := ("q1").data } : MarketRecord).address
      = ({ address := ("x").data, question := ("q2").data } : MarketRecord).address) ∧
    (getMarket (saveMarket (saveMarket ⟨[], [], []⟩ 0 { address := ("x").data, question := ("q1").data })
        1 { address := ("x").data, question := ("q2").data }) (("x").data)).map (fun m => m.question)
      = some (("q2").data) :=
  ⟨rfl, (saveMarket_upsert_idempotent ⟨[], [], []⟩ 0 1
      { address := ("x").data, question := ("q1").data }
      { address := ("x").data, question := ("q2").data } rfl).2.1⟩

/-- C3: a record saved without an explicit end timestamp gets
`endTime = creationTime + durationDays * 86400000`; in particular 30 days
yield `T + 2592000000`. -/
theorem saveMarket_endTime (s : MarketStore) (now : Int) (r : MarketRecord) (T d : Int)
    (hE : r.endTime = none) (hT : r.creationTime = some T) (hD : r.durationDays = some d) :
    (getMarket (saveMarket s now r) r.address).map (fun m => m.endTime)
      = some (some (T + d * 86400000)) ∧
    (d = 30 → (getMarket (saveMarket s now r) r.address).map (fun m => m.endTime)
      = some (some (T + 2592000000))) := by
  have hrow : (rowOfRecord now r).endTime = some (T + d * 86400000) := by
    simp [rowOfRecord, hE, hT, hD, jsOrI, jsAdd, jsMul]
  constructor
  · rw [getMarket_saveMarket, if_pos rfl]
    simp [hrow]
  · intro hd
    rw [getMarket_saveMarket, if_pos rfl]
    simp [hrow, hd]

/-- C3 witness: `creationTime = 1000`, `durationDays = 30`, no explicit
end time: the stored `endTime` is `1000 + 30 * 86400000`. -/
theorem saveMarket_endTime_witness :
    (getMarket (saveMarket ⟨[], [], []⟩ 0
        { address := ("x").data, question := ("q").data,
          creationTime := some 1000, durationDays := some 30 }) (("x").data)).map (fun m => m.endTime)
      = some (some (1000 + 2592000000)) :=
  (saveMarket_endTime ⟨[], [], []⟩ 0
    { address := ("x").data, question := ("q").data,
      creationTime := some 1000, durationDays := some 30 } 1000 30 rfl rfl rfl).2 rfl

/-- Comparison used by `getAllMarkets`'s `ORDER BY creation_time DESC`:
SQL `NULL` (`none`) is the smallest value, so it sorts last in descending
order. `rowDescLe a b` says `a` may come before `b`. -/
def rowDescLe (a b : MarketRow) : Prop :=
  (match a.creationTime, b.creationTime with
    | none, none => true
    | none, some _ => false
    | some _, none => true
    | some x, some y => y ≤ x : Bool) = true

instance : DecidableRel rowDescLe := fun a b => inferInstanceAs (Decidable (_ = true))

/-- `MarketStore.getAllMarkets` with no filters, as used by `export`:
every row, sorted by creation time descending. -/
def getAllMarkets (s : MarketStore) : List MarketRow :=
  List.insertionSort rowDescLe s.markets

/-- `MarketStore.clear`: `DELETE FROM` all three tables. -/
def clearStore (_ : MarketStore) : MarketStore := ⟨[], [], []⟩

/-- The snapshot object produced by `MarketStore.export` (the JSON
serialisation of this fixed shape is modelled as the identity). -/
structure ExportData where
  markets : List MarketRow
  state : List (JStr × DaemonStateRec × Int)
  events : List JStr
deriving DecidableEq

/-- `MarketStore.export`: snapshot of all markets (sorted), the state table
and up to 1000 recent webhook events. -/
def storeExport (s : MarketStore) : ExportData :=
  ⟨getAllMarkets s, s.daemonState, s.webhookEvents.take 1000⟩

/-- `_rowToMarket`: the camelCase market object handed back to callers (and
re-saved by `import`); under the identity-JSON model it carries the same
fields as the row. -/
def recordOfRow (row : MarketRow) : MarketRecord :=
  { address := row.address
    question := row.question
    category := row.category
    categoryKey := row.categoryKey
    creationTime := row.creationTime
    creationSignature := row.creationSignature
    initialLiquidity := row.initialLiquidity
    durationDays := row.durationDays
    endTime := row.endTime
    status := row.status
    outcome := row.outcome
    volume := row.volume
    resolutionTime := row.resolutionTime
    metadata := row.metadata }

/-- `MarketStore.import`: re-apply every exported market through the
`saveMarket` upsert path. -/
def storeImport (e : ExportData) (now : Int) (s : MarketStore) : MarketStore :=
  e.markets.foldl (fun acc m => saveMarket acc now (recordOfRow m)) s

/-- Lookup after folding `saveMarket` over rows with pairwise-distinct
addresses: the unique matching row wins, otherwise the base store answers. -/
theorem getMarket_import_fold (rows : List MarketRow) (s : MarketStore) (now : Int) (a : JStr)
    (hnd : (rows.map (fun m => m.address)).Nodup) :
    getMarket (rows.foldl (fun acc m => saveMarket acc now (recordOfRow m)) s) a =
      match rows.find? (fun m => m.address == a) with
      | some m => some (rowOfRecord now (recordOfRow m))
      | none => getMarket s a := by
  induction rows generalizing s with
  | nil => rfl
  | cons m rows ih =>
    rw [List.map_cons, List.nodup_cons] at hnd
    rw [List.foldl_cons, ih _ hnd.2]
    by_cases hma : m.address = a
    · have hfr : rows.find? (fun x => x.address == a) = none := by
        rw [List.find?_eq_none]
        intro x hx
        simp only [beq_iff_eq]
        intro hxa
        exact hnd.1 (List.mem_map.mpr ⟨x, hx, by rw [hxa, hma]⟩)
      rw [hfr]
      simp only [List.find?_cons, show (m.address == a) = true by simpa using hma]
      rw [getMarket_saveMarket]
      simp [recordOfRow, hma]
    · simp only [List.find?_cons, show (m.address == a) = false by simpa using hma]
      cases hfr : rows.find? (fun x => x.address == a) with
      | some x => rfl
      | none =>
        rw [getMarket_saveMarket, if_neg (by simp [recordOfRow]; exact fun hc => hma hc.symm)]

/-- Under pairwise-distinct addresses, `find?` by address is invariant
under permutation of the rows. -/
theorem find?_addr_perm (l l' : List MarketRow) (hp : l.Perm l')
    (hnd : (l.map (fun m => m.address)).Nodup) (a : JStr) :
    l.find? (fun m => m.address == a) = l'.find? (fun m => m.address == a) := by
  cases h : l.find? (fun m => m.address == a) with
  | some m =>
    have hm : m ∈ l := List.mem_of_find?_eq_some h
    have hpa := List.find?_some h
    have hsome : (l'.find? (fun x => x.address == a)).isSome := by
      rw [List.find?_isSome]
      exact ⟨m, hp.mem_iff.mp hm, hpa⟩
    obtain ⟨m', hm'⟩ := Option.isSome_iff_exists.mp hsome
    have hm'l : m' ∈ l := hp.mem_iff.mpr (List.mem_of_find?_eq_some hm')
    have hpa' := List.find?_some hm'
    have : m = m' := by
      have inj := List.inj_on_of_nodup_map hnd
      simp only [beq_iff_eq] at hpa hpa'
      exact inj hm hm'l (by rw [hpa, hpa'])
    rw [hm', this]
  | none =>
    symm
    rw [List.find?_eq_none] at h ⊢
    intro x hx
    exact h x (hp.mem_iff.mpr hx)

/-- C9: export → clear → import restores an equivalent set of records (same
addresses, same question text), and importing the same snapshot again on top
changes nothing `getMarket` can observe. -/
theorem export_clear_import_roundtrip (s : MarketStore) (now : Int)
    (hnd : (s.markets.map (fun m => m.address)).Nodup) :
    (∀ a, (getMarket (storeImport (storeExport s) now (clearStore s)) a).map (fun m => m.question)
        = (getMarket s a).map (fun m => m.question)) ∧
    (∀ a, getMarket (storeImport (storeExport s) now
            (storeImport (storeExport s) now (clearStore s))) a
        = getMarket (storeImport (storeExport s) now (clearStore s)) a) := by
  have hperm : (getAllMarkets s).Perm s.markets := List.perm_insertionSort _ _
  have hndall : ((getAllMarkets s).map (fun m => m.address)).Nodup :=
    ((hperm.map (fun m => m.address)).nodup_iff).mpr hnd
  have hfind : ∀ a, (getAllMarkets s).find? (fun m => m.address == a)
      = s.markets.find? (fun m => m.address == a) :=
    fun a => find?_addr_perm _ _ hperm hndall a
  have key : ∀ (base : MarketStore) (a : JStr),
      getMarket (storeImport (storeExport s) now base) a =
        match (getAllMarkets s).find? (fun m => m.address == a) with
        | some m => some (rowOfRecord now (recordOfRow m))
        | none => getMarket base a := by
    intro base a
    show getMarket ((getAllMarkets s).foldl (fun acc m => saveMarket acc now (recordOfRow m)) base) a = _
    exact getMarket_import_fold _ _ _ _ hndall
  constructor
  · intro a
    rw [key (clearStore s) a, hfind a]
    cases h : s.markets.find? (fun m => m.address == a) with
    | some m => simp [getMarket, h, rowOfRecord, recordOfRow]
    | none => simp [getMarket, h, clearStore]
  · intro a
    rw [key (storeImport (storeExport s) now (clearStore s)) a]
    cases h : (getAllMarkets s).find? (fun m => m.address == a) with
    | some m =>
      simp only
      rw [key (clearStore s) a, h]
    | none => simp only

/-- A concrete two-market store used to witness the round-trip claim. -/
def demoStoreC9 : MarketStore :=
  ⟨[{ address := ("a").data, question := ("qa").data, creationTime := some 5 },
    { address := ("b").data, question := ("qb").data, creationTime := some 9 }], [], []⟩

/-- C9 witness: the concrete two-market store keeps the same addresses and
questions across the export → clear → import cycle. -/
theorem export_clear_import_roundtrip_witness :
    ((demoStoreC9.markets.map (fun m => m.address)).Nodup) ∧
    (getMarket (storeImport (storeExport demoStoreC9) 7 (clearStore demoStoreC9)) (("a").data)).map
        (fun m => m.question)
      = (getMarket demoStoreC9 (("a").data)).map (fun m => m.question) :=
  ⟨by decide, (export_clear_import_roundtrip demoStoreC9 7 (by decide)).1 (("a").data)⟩

/-- `MarketStore.saveState(key, value)`: `INSERT OR REPLACE` into
`daemon_state` with `updated_at = now` (the JSON encoding of the fixed
daemon-state shape is modelled as the identity). -/
def saveStateKV (s : MarketStore) (now : Int) (key : JStr) (v : DaemonStateRec) : MarketStore :=
  { s with daemonState := s.daemonState.filter (fun kv => !(kv.1 == key)) ++ [(key, v, now)] }

/-- `MarketStore.getState(key)`: the stored value for `key`, `null` when
absent. -/
def getStateKV (s : MarketStore) (key : JStr) : Option DaemonStateRec :=
  (s.daemonState.find? (fun kv => kv.1 == key)).map (fun kv => kv.2.1)

/-- Read-over-upsert for the `daemon_state` table. -/
theorem getStateKV_saveStateKV (s : MarketStore) (now : Int) (key : JStr) (v : DaemonStateRec)
    (key' : JStr) :
    getStateKV (saveStateKV s now key v) key' =
      if key' = key then some v else getStateKV s key' := by
  unfold getStateKV saveStateKV
  simp only
  rw [List.find?_append]
  by_cases h : key' = key
  · have hnone : List.find? (fun kv => kv.1 == key')
        (s.daemonState.filter (fun kv => !(kv.1 == key))) = none := by
      rw [List.find?_eq_none]
      intro x hx
      have := (List.mem_filter.mp hx).2
      simp_all
    rw [hnone]
    simp [h]
  · have hlast : List.find? (fun kv => kv.1 == key') [(key, v, now)] = none := by
      simp
      exact fun hc => h hc.symm
    rw [hlast]
    rw [find?_filter_of_imp]
    · simp [h]
    · intro x hx
      simp only [beq_iff_eq] at hx
      simp [hx, h]

/-- The daemon configuration fields that matter to the verified claims
(emitter.js constructor; `maxIterations` defaults to `null` and a falsy
value is normalised to `null`). -/
structure DaemonConfig where
  schedule : JStr
  maxIterations : Option Nat := none
  marketsPerRound : Nat := 1
deriving DecidableEq

/-- `PrivacyOracleDaemon` instance state relevant to the claims. -/
structure Daemon where
  config : DaemonConfig
  iterationCount : Nat
  isRunning : Bool
deriving DecidableEq

/-- A freshly constructed daemon: `iterationCount = 0`, not running. -/
def mkDaemon (cfg : DaemonConfig) : Daemon := ⟨cfg, 0, false⟩

/-- Key under which the daemon persists its state. -/
def daemonKey : JStr := ("daemon").data

/-- `PrivacyOracleDaemon.saveState`: persists iteration count, the current
time and the config subset under the `daemon` key. -/
def saveDaemonState (d : Daemon) (s : MarketStore) (now : Int) : MarketStore :=
  saveStateKV s now daemonKey
    ⟨d.iterationCount, now, d.config.schedule, d.config.marketsPerRound⟩

/-- `PrivacyOracleDaemon.restoreState`: reads the `daemon` key; when present
adopts `state.iterationCount || 0` (the `|| 0` is the identity on `Nat`),
otherwise leaves the instance untouched. -/
def restoreState (s : MarketStore) (d : Daemon) : Daemon :=
  match getStateKV s daemonKey with
  | some st => { d with iterationCount := st.iterationCount }
  | none => d

/-- The state-restoring portion of `PrivacyOracleDaemon.start()`: throws if
already running, otherwise restores persisted state and marks the daemon
running.  (Agent/webhook/news initialisation is external to the store and
does not touch the iteration counter.) -/
def daemonStart (d : Daemon) (s : MarketStore) : Except JStr Daemon :=
  if d.isRunning then .error (("Daemon is already running").data)
  else .ok { restoreState s d with isRunning := true }

/-- The non-terminating branch of `executeCycle`: increment the iteration
counter, persist each successful batch result, then persist daemon state.
`batch` stands for the successful results returned by the external
market-creation service. -/
def executeCycleRun (d : Daemon) (s : MarketStore) (now : Int) (batch : List MarketRecord) :
    Daemon × MarketStore :=
  let d' := { d with iterationCount := d.iterationCount + 1 }
  let s' := batch.foldl (fun acc r => saveMarket acc now r) s
  (d', saveDaemonState d' s' now)

/-- `PrivacyOracleDaemon.executeCycle`: when `maxIterations` is truthy and
reached, stop (persisting the unchanged count); otherwise run the cycle. -/
def executeCycle (d : Daemon) (s : MarketStore) (now : Int) (batch : List MarketRecord) :
    Daemon × MarketStore :=
  match d.config.maxIterations with
  | some m =>
    if m ≠ 0 ∧ m ≤ d.iterationCount then
      ({ d with isRunning := false }, saveDaemonState d s now)
    else executeCycleRun d s now batch
  | none => executeCycleRun d s now batch

/-- C1: a fresh daemon started against a store whose persisted state holds
`iterationCount = k` restores exactly `k` (never less, never reset to `0`
when `k > 0`), and with the default `maxIterations = null` the next
`executeCycle` increments the counter to `k + 1` and persists `k + 1`. -/
theorem daemon_restart_resumes_counter (cfg : DaemonConfig) (s : MarketStore)
    (st : DaemonStateRec) (k : Nat) (now : Int) (batch : List MarketRecord)
    (hmax : cfg.maxIterations = none)
    (hst : getStateKV s daemonKey = some st) (hk : st.iterationCount = k) :
    ∃ d1 : Daemon, daemonStart (mkDaemon cfg) s = .ok d1 ∧
      d1.iterationCount = k ∧
      k ≤ d1.iterationCount ∧
      (0 < k → d1.iterationCount ≠ 0) ∧
      (executeCycle d1 s now batch).1.iterationCount = k + 1 ∧
      (getStateKV (executeCycle d1 s now batch).2 daemonKey).map (fun r => r.iterationCount)
        = some (k + 1) := by
  refine ⟨{ restoreState s (mkDaemon cfg) with isRunning := true }, rfl, ?_⟩
  have hres : (restoreState s (mkDaemon cfg)).iterationCount = k := by
    unfold restoreState
    rw [hst]
    exact hk
  have hcount : ({ restoreState s (mkDaemon cfg) with isRunning := true } : Daemon).iterationCount = k := hres
  have hcfg : ({ restoreState s (mkDaemon cfg) with isRunning := true } : Daemon).config = cfg := by
    unfold restoreState
    cases getStateKV s daemonKey <;> rfl
  refine ⟨hcount, le_of_eq hcount.symm, fun hpos => by omega, ?_, ?_⟩
  · unfold executeCycle
    rw [hcfg, hmax]
    simp [executeCycleRun, hres]
  · unfold executeCycle
    rw [hcfg, hmax]
    unfold executeCycleRun saveDaemonState
    simp only
    rw [getStateKV_saveStateKV, if_pos rfl]
    simp [hres]

/-- A store holding persisted daemon state with five completed iterations. -/
def demoStoreC1 : MarketStore :=
  ⟨[], [(("daemon").data, ⟨5, 0, ("1h").data, 1⟩, 0)], []⟩

/-- C1 witness: restarting against `demoStoreC1` resumes from 5 and the next
cycle reaches 6. -/
theorem daemon_restart_resumes_counter_witness :
    getStateKV demoStoreC1 daemonKey = some ⟨5, 0, ("1h").data, 1⟩ ∧
    ∃ d1 : Daemon, daemonStart (mkDaemon ⟨("1h").data, none, 1⟩) demoStoreC1 = .ok d1 ∧
      d1.iterationCount = 5 ∧
      5 ≤ d1.iterationCount ∧
      (0 < 5 → d1.iterationCount ≠ 0) ∧
      (executeCycle d1 demoStoreC1 77 []).1.iterationCount = 5 + 1 ∧
      (getStateKV (executeCycle d1 demoStoreC1 77 []).2 daemonKey).map (fun r => r.iterationCount)
        = some (5 + 1) :=
  ⟨by decide,
   daemon_restart_resumes_counter ⟨("1h").data, none, 1⟩ demoStoreC1 ⟨5, 0, ("1h").data, 1⟩ 5 77 []
     rfl (by decide) rfl⟩

/-- Parsed schedule descriptor (scheduler.js `parseSchedule` result). -/
inductive Sched where
  | cron (expr : JStr)
  | interval (ms : Int)
deriving DecidableEq

/-- Unit multipliers from scheduler.js (`s`, `m`, `h`, `d`). -/
def multOf (u : Char) : Int :=
  if u = 's' then 1000
  else if u = 'm' then 60 * 1000
  else if u = 'h' then 60 * 60 * 1000
  else 24 * 60 * 60 * 1000

/-- The regex `/^(\d+)(s|m|h|d)$/i`: all leading digits, then exactly one
unit character (case-insensitive); yields the digit value and the
lowercased unit. -/
def matchIntervalRe (s : JStr) : Option (Nat × Char) :=
  let ds := s.takeWhile Char.isDigit
  match s.dropWhile Char.isDigit with
  | [u] =>
    if ds.isEmpty then none
    else if u.toLower = 's' ∨ u.toLower = 'm' ∨ u.toLower = 'h' ∨ u.toLower = 'd' then
      some (digitsToNat ds, u.toLower)
    else none
  | _ => none

/-- JS `parseInt(s, 10)`: skip leading whitespace, optional sign, then the
longest digit run; `NaN` (here `none`) when no digit follows. -/
def jsParseInt (s : JStr) : Option Int :=
  let t := s.dropWhile Char.isWhitespace
  match t with
  | '-' :: r =>
    let ds := r.takeWhile Char.isDigit
    if ds.isEmpty then none else some (-(digitsToNat ds : Int))
  | '+' :: r =>
    let ds := r.takeWhile Char.isDigit
    if ds.isEmpty then none else some ((digitsToNat ds : Int))
  | r =>
    let ds := r.takeWhile Char.isDigit
    if ds.isEmpty then none else some ((digitsToNat ds : Int))

/-- The error message thrown for an unparsable schedule; it embeds the
offending string. -/
def invalidScheduleMsg (s : JStr) : JStr :=
  ("Invalid schedule format: ").data ++ s ++ (". Use cron expression or interval (e.g., \"5m\", \"1h\")").data

/-- `Scheduler.parseSchedule` (scheduler.js lines 72-103).  A string with a
`*` or with at least five space-separated fields is a cron expression
(JS `split(' ').length` equals the space count plus one); otherwise the
interval regex, then JS `parseInt`, then the thrown error. -/
def parseSchedule (s : JStr) : Except JStr Sched :=
  if '*' ∈ s ∨ 5 ≤ s.count ' ' + 1 then .ok (.cron s)
  else
    match matchIntervalRe s with
    | some (n, u) => .ok (.interval ((n : Int) * multOf u))
    | none =>
      match jsParseInt s with
      | some ms => .ok (.interval ms)
      | none => .error (invalidScheduleMsg s)

/-- Helper: a list of digit characters is consumed whole by `takeWhile
isDigit` when followed by a non-digit. -/
theorem takeWhile_digits_append (ds : List Char) (u : Char)
    (hds : ∀ c ∈ ds, c.isDigit = true) (hu : u.isDigit = false) :
    (ds ++ [u]).takeWhile Char.isDigit = ds ∧ (ds ++ [u]).dropWhile Char.isDigit = [u] := by
  induction ds with
  | nil => simp [List.takeWhile, List.dropWhile, hu]
  | cons c ds ih =>
    have hc : c.isDigit = true := hds c (List.mem_cons_self c ds)
    have ih' := ih (fun x hx => hds x (List.mem_cons_of_mem c hx))
    simp only [List.cons_append, List.takeWhile_cons, List.dropWhile_cons, hc]
    simp [ih'.1, ih'.2]

/-- C5: every valid interval string `<digits><unit>` with a lowercase unit
in s/m/h/d parses to `type=interval` with `ms = value × multiplier`, and
every string containing `*` parses to `type=cron`. -/
theorem parseSchedule_interval_cron :
    (∀ (ds : List Char) (u : Char), ds ≠ [] → (∀ c ∈ ds, c.isDigit = true) →
      (u = 's' ∨ u = 'm' ∨ u = 'h' ∨ u = 'd') →
      parseSchedule (ds ++ [u]) = .ok (.interval ((digitsToNat ds : Int) * multOf u))) ∧
    (∀ s : JStr, '*' ∈ s → parseSchedule s = .ok (.cron s)) := by
  constructor
  · intro ds u hne hds hu
    have hu_nd : u.isDigit = false := by
      rcases hu with rfl | rfl | rfl | rfl <;> decide
    have hu_low : u.toLower = u := by
      rcases hu with rfl | rfl | rfl | rfl <;> decide
    have hstar : ¬ ('*' ∈ ds ++ [u]) := by
      intro hc
      rcases List.mem_append.mp hc with hin | hin
      · exact absurd (hds _ hin) (by decide)
      · rcases hu with rfl | rfl | rfl | rfl <;> simp_all
    have hspace : (ds ++ [u]).count ' ' = 0 := by
      apply List.count_eq_zero_of_not_mem
      intro hc
      rcases List.mem_append.mp hc with hin | hin
      · exact absurd (hds _ hin) (by decide)
      · rcases hu with rfl | rfl | rfl | rfl <;> simp_all
    have hmatch : matchIntervalRe (ds ++ [u]) = some (digitsToNat ds, u) := by
      unfold matchIntervalRe
      obtain ⟨ht, hd⟩ := takeWhile_digits_append ds u hds hu_nd
      rw [ht, hd]
      simp only [hu_low]
      rw [if_neg (by simpa using hne)]
      rcases hu with rfl | rfl | rfl | rfl <;> simp
    unfold parseSchedule
    rw [if_neg (by rw [hspace]; push_neg; exact ⟨hstar, by omega⟩), hmatch]
  · intro s hs
    unfold parseSchedule
    rw [if_pos (Or.inl hs)]

/-- C5 witness: `"30m"` yields a 1,800,000 ms interval and `"* * * * *"` is
cron. -/
theorem parseSchedule_interval_cron_witness :
    parseSchedule ((['3', '0'] : List Char) ++ ['m'])
      = .ok (.interval ((digitsToNat ['3', '0'] : Int) * multOf 'm')) ∧
    parseSchedule (("* * * * *").data) = .ok (.cron (("* * * * *").data)) ∧
    (digitsToNat ['3', '0'] : Int) * multOf 'm' = 1800000 :=
  ⟨parseSchedule_interval_cron.1 ['3', '0'] 'm' (by decide) (by decide) (by decide),
   parseSchedule_interval_cron.2 (("* * * * *").data) (by decide),
   by decide⟩

/-- Modelled from the spec: a string that "parses as a plain non-negative
integer" — a non-empty string consisting solely of decimal digits. -/
def specPlainNonNegInt (s : JStr) : Bool :=
  !s.isEmpty && s.all Char.isDigit

/-- C4 counterexample: `"-5"` is not a cron candidate, matches no interval
unit, and is not a plain non-negative integer, yet `parseSchedule` does not
fail — JS `parseInt` accepts the signed prefix and the code returns a
(negative) interval. -/
theorem parseSchedule_negative_counterexample :
    ('*' ∉ (("-5").data)) ∧
    (("-5").data).count ' ' + 1 < 5 ∧
    matchIntervalRe (("-5").data) = none ∧
    specPlainNonNegInt (("-5").data) = false ∧
    parseSchedule (("-5").data) = .ok (.interval (-5)) := by
  refine ⟨by decide, by decide, by decide, by decide, by rfl⟩

/-- C4 (amended): when the string is not treated as cron, matches no
interval unit, and JS `parseInt` finds no leading (optionally signed)
integer, `parseSchedule` fails with the invalid-format error whose message
contains the offending string. -/
theorem parseSchedule_invalid_error (s : JStr)
    (hstar : '*' ∉ s) (hfields : s.count ' ' + 1 < 5)
    (hre : matchIntervalRe s = none) (hint : jsParseInt s = none) :
    parseSchedule s = .error (invalidScheduleMsg s) ∧ s <:+: invalidScheduleMsg s := by
  constructor
  · unfold parseSchedule
    rw [if_neg (by push_neg; exact ⟨hstar, by omega⟩), hre, hint]
  · exact ⟨("Invalid schedule format: ").data,
      (". Use cron expression or interval (e.g., \"5m\", \"1h\")").data, rfl⟩

/-- C4 witness: the string `"invalid"` fails with the invalid-format error
that embeds it. -/
theorem parseSchedule_invalid_error_witness :
    parseSchedule (("invalid").data) = .error (invalidScheduleMsg (("invalid").data)) ∧
    (("invalid").data) <:+: invalidScheduleMsg (("invalid").data) :=
  parseSchedule_invalid_error (("invalid").data) (by decide) (by decide) (by decide) (by decide)

/-- Largest signed 64-bit integer (SQLite's INTEGER type). -/
def int64Max : Int := 9223372036854775807

/-- Smallest signed 64-bit integer. -/
def int64Min : Int := -9223372036854775808

/-- SQLite `CAST(text AS INTEGER)`: longest (optionally signed) digit
prefix after leading spaces, `0` when there is none, saturated to the
signed 64-bit range. -/
def castTextToInt64 (v : JStr) : Int :=
  let t := v.dropWhile (fun c => c == ' ')
  let signed : Bool × List Char :=
    match t with
    | '-' :: r => (true, r)
    | '+' :: r => (false, r)
    | r => (false, r)
  let ds := signed.2.takeWhile Char.isDigit
  let n : Int := (digitsToNat ds : Int)
  let x := if signed.1 then -n else n
  if int64Max < x then int64Max else if x < int64Min then int64Min else x

/-- SQLite `SUM` over INTEGER values: exact 64-bit accumulation, raising
"integer overflow" (modelled as `Except.error`) when a running total leaves
the 64-bit range. -/
def sumInt64 : List Int → Int → Except Unit Int
  | [], acc => .ok acc
  | v :: vs, acc =>
    if int64Max < acc + v ∨ acc + v < int64Min then .error ()
    else sumInt64 vs (acc + v)

/-- Structural bit length: `bitLenAux fuel n` is the binary length of `n`
provided `n ≤ fuel`. -/
def bitLenAux : Nat → Nat → Nat
  | 0, _ => 0
  | fuel + 1, n => if n ≤ 1 then (if n = 0 then 0 else 1) else bitLenAux fuel (n / 2) + 1

/-- Binary length of a natural number (`0` has length `0`); the fuel makes
the halving recursion structural so that it reduces in the kernel. -/
def bitLen (n : Nat) : Nat := bitLenAux n n

/-- Helper: numbers below `2 ^ k` have bit length at most `k`. -/
theorem bitLenAux_le (fuel : Nat) : ∀ n k, n ≤ fuel → n < 2 ^ k → bitLenAux fuel n ≤ k := by
  induction fuel with
  | zero =>
    intro n k hf hk
    simp [bitLenAux]
  | succ fuel ih =>
    intro n k hf hk
    by_cases h1 : n ≤ 1
    · rw [bitLenAux, if_pos h1]
      rcases Nat.eq_zero_or_pos k with rfl | hkpos
      · have : n = 0 := by simpa using hk
        simp [this]
      · split <;> omega
    · push_neg at h1
      have hkpos : 1 ≤ k := by
        rcases Nat.eq_zero_or_pos k with rfl | hkpos
        · simp at hk
          omega
        · exact hkpos
      have h2k : 2 ^ k = 2 * 2 ^ (k - 1) := by
        conv_lhs => rw [show k = (k - 1) + 1 by omega]
        rw [pow_succ]
        ring
      have hhalf : n / 2 < 2 ^ (k - 1) := by
        rw [h2k] at hk
        omega
      have hf2 : n / 2 ≤ fuel := by omega
      have hrec := ih (n / 2) (k - 1) hf2 hhalf
      rw [bitLenAux, if_neg (by omega)]
      omega

/-- Helper: `bitLen` bound from a power-of-two bound. -/
theorem bitLen_le (n k : Nat) (h : n < 2 ^ k) : bitLen n ≤ k :=
  bitLenAux_le n n k le_rfl h

/-- Round a natural number to the nearest IEEE-754 double (53-bit
significand, round half to even).  Exact below `2^53`. -/
def f64RoundNat (n : Nat) : Nat :=
  let b := bitLen n
  if b ≤ 53 then n
  else
    let e := b - 53
    let q := n / 2 ^ e
    let r := n % 2 ^ e
    let half := 2 ^ (e - 1)
    if half < r ∨ (r = half ∧ q % 2 = 1) then (q + 1) * 2 ^ e else q * 2 ^ e

/-- Round an integer to the nearest double — what better-sqlite3 does when
returning a SQLite INTEGER to JS as a number. -/
def f64RoundInt (n : Int) : Int :=
  if n < 0 then -(f64RoundNat n.natAbs : Int) else (f64RoundNat n.natAbs : Int)

/-- `BigInt(x).toString()`: decimal rendering of an integer. -/
def intToDecStr (n : Int) : JStr :=
  if n < 0 then '-' :: (Nat.repr n.natAbs).data else (Nat.repr n.natAbs).data

/-- JS `Math.round(a / b)` for integers with `b > 0`, idealising the
double division as an exact rational: `round(a/b) = ⌊a/b + 1/2⌋`, computed
as the floor division `fdiv (2a + b) (2b)`. -/
def jsRoundFrac (a b : Int) : Int := Int.fdiv (2 * a + b) (2 * b)

/-- Status literal for resolved markets. -/
def resolvedStr : JStr := ("resolved").data

/-- The volume column values summed by `getPerformanceMetrics`'s
`SELECT SUM(CAST(volume AS INTEGER))` (SQL `NULL`s are skipped). -/
def volumeCasts (s : MarketStore) : List Int :=
  s.markets.filterMap (fun m => m.volume.map castTextToInt64)

/-- `SELECT * FROM markets WHERE status = 'resolved'`. -/
def resolvedRows (s : MarketStore) : List MarketRow :=
  s.markets.filter (fun m => m.status == some resolvedStr)

/-- The result object of `MarketStore.getPerformanceMetrics`.
`resolutionRate` is the JS number `Math.round(rate*100)/100`, carried as an
exact rational. -/
structure PerfMetrics where
  totalVolume : JStr
  averageDuration : Int
  resolutionRate : Rat
  marketCount : Nat
deriving DecidableEq

/-- `MarketStore.getPerformanceMetrics` (market-store.js lines 246-267):
sums the int64 casts of the volume strings (the driver hands the sum back
as a double, then `BigInt(...).toString()`), averages `duration_days` over
resolved rows with `Math.round`, and reports `resolved/total` rounded to
two decimals (`0` when the table is empty). -/
def getPerformanceMetrics (s : MarketStore) : Except Unit PerfMetrics :=
  let resolved := resolvedRows s
  match sumInt64 (volumeCasts s) 0 with
  | .error e => .error e
  | .ok total =>
    let totalDays : Int := (resolved.map (fun m => m.durationDays.getD 0)).sum
    let avgDur : Int :=
      if resolved.length = 0 then 0 else jsRoundFrac totalDays (resolved.length : Int)
    let rateRounded : Int :=
      if 0 < s.markets.length then
        jsRoundFrac (100 * (resolved.length : Int)) (s.markets.length : Int)
      else jsRoundFrac 0 1
    .ok ⟨intToDecStr (f64RoundInt total), avgDur, (rateRounded : Rat) / 100, resolved.length⟩

/-- Modelled from the spec: the exact arbitrary-precision integer value of
a decimal volume string (optional sign, all digits). -/
def specDecToInt (v : JStr) : Int :=
  match v with
  | '-' :: r => -(digitsToNat r : Int)
  | r => (digitsToNat r : Int)

/-- Modelled from the spec: the exact arbitrary-precision integer sum of
all stored record volumes. -/
def specExactVolumeSum (s : MarketStore) : Int :=
  ((s.markets.filterMap (fun m => m.volume)).map specDecToInt).sum

/-- Helper: the absolute value of a list sum is at most the sum of absolute
values. -/
theorem natAbs_sum_le (l : List Int) : l.sum.natAbs ≤ (l.map Int.natAbs).sum := by
  induction l with
  | nil => simp
  | cons v vs ih =>
    simp only [List.sum_cons, List.map_cons]
    calc (v + vs.sum).natAbs ≤ v.natAbs + vs.sum.natAbs := Int.natAbs_add_le _ _
    _ ≤ v.natAbs + (vs.map Int.natAbs).sum := by omega

/-- Helper: `sumInt64` never overflows when the sum of absolute values
stays inside the 64-bit range, and then computes the exact sum. -/
theorem sumInt64_ok (vs : List Int) (acc : Int)
    (h : acc.natAbs + (vs.map Int.natAbs).sum < 2 ^ 63) :
    sumInt64 vs acc = .ok (acc + vs.sum) := by
  induction vs generalizing acc with
  | nil => simp [sumInt64]
  | cons v vs ih =>
    have habs : (acc + v).natAbs < 2 ^ 63 := by
      have h1 := Int.natAbs_add_le acc v
      simp only [List.map_cons, List.sum_cons] at h
      omega
    have hub : ¬ (int64Max < acc + v ∨ acc + v < int64Min) := by
      unfold int64Max int64Min
      push_neg
      rcases Int.natAbs_eq (acc + v) with he | he <;> omega
    rw [sumInt64, if_neg hub, ih]
    · rw [List.sum_cons]
      ring_nf
    · simp only [List.map_cons, List.sum_cons] at h
      have h1 := Int.natAbs_add_le acc v
      omega

/-- Helper: `f64RoundNat` is the identity below `2^53`. -/
theorem f64RoundNat_small (n : Nat) (h : n < 2 ^ 53) : f64RoundNat n = n := by
  unfold f64RoundNat
  have hb : bitLen n ≤ 53 := bitLen_le n 53 h
  simp [hb]

/-- Helper: `f64RoundInt` is the identity on integers of magnitude below
`2^53`. -/
theorem f64RoundInt_small (n : Int) (h : n.natAbs < 2 ^ 53) : f64RoundInt n = n := by
  unfold f64RoundInt
  rw [f64RoundNat_small _ h]
  by_cases hn : n < 0
  · rw [if_pos hn]
    omega
  · rw [if_neg hn]
    omega

/-- C7 (amended): `totalVolume` equals the decimal rendering of the sum of
the 64-bit casts of the stored volume strings — the exact
arbitrary-precision sum only when every volume is a canonical in-range
decimal and the magnitude-sum stays below `2^53` (the double-exact range,
which also rules out the SQLite overflow error); `resolutionRate` is
`resolved/total` rounded to the nearest hundredth, and `0` for an empty
table. -/
theorem getPerformanceMetrics_exact (s : MarketStore)
    (hb : ((volumeCasts s).map Int.natAbs).sum < 2 ^ 53) :
    getPerformanceMetrics s = .ok
      ⟨intToDecStr ((volumeCasts s).sum),
       (if (resolvedRows s).length = 0 then 0
        else jsRoundFrac (((resolvedRows s).map (fun m => m.durationDays.getD 0)).sum)
          ((resolvedRows s).length : Int)),
       (((if 0 < s.markets.length then
            jsRoundFrac (100 * ((resolvedRows s).length : Int)) (s.markets.length : Int)
          else jsRoundFrac 0 1) : Int) : Rat) / 100,
       (resolvedRows s).length⟩ ∧
    (s.markets.length = 0 →
      Except.map (fun pm => pm.resolutionRate) (getPerformanceMetrics s) = .ok (0 : Rat)) := by
  have hb63 : (0 : Int).natAbs + ((volumeCasts s).map Int.natAbs).sum < 2 ^ 63 := by
    have h2 : (2 : Nat) ^ 53 < 2 ^ 63 := by norm_num
    simpa using lt_trans hb h2
  have hsum : sumInt64 (volumeCasts s) 0 = .ok ((volumeCasts s).sum) := by
    have := sumInt64_ok (volumeCasts s) 0 hb63
    simpa using this
  have habs : ((volumeCasts s).sum).natAbs < 2 ^ 53 :=
    lt_of_le_of_lt (natAbs_sum_le _) hb
  have hmain : getPerformanceMetrics s = .ok
      ⟨intToDecStr ((volumeCasts s).sum),
       (if (resolvedRows s).length = 0 then 0
        else jsRoundFrac (((resolvedRows s).map (fun m => m.durationDays.getD 0)).sum)
          ((resolvedRows s).length : Int)),
       (((if 0 < s.markets.length then
            jsRoundFrac (100 * ((resolvedRows s).length : Int)) (s.markets.length : Int)
          else jsRoundFrac 0 1) : Int) : Rat) / 100,
       (resolvedRows s).length⟩ := by
    unfold getPerformanceMetrics
    simp only [hsum]
    rw [f64RoundInt_small _ habs]
  refine ⟨hmain, ?_⟩
  intro h0
  rw [hmain]
  simp only [Except.map]
  rw [if_neg (by omega)]
  have hz : jsRoundFrac 0 1 = 0 := by decide
  rw [hz]
  norm_num

/-- Store used to witness the amended metrics claim. -/
def demoStoreC7w : MarketStore :=
  ⟨[{ address := ("a").data, question := ("q").data, status := some resolvedStr,
      durationDays := some 10, volume := some (("5").data) }], [], []⟩

/-- C7 witness: for a one-market store with volume "5" the bound holds and
the metrics equation follows. -/
theorem getPerformanceMetrics_exact_witness :
    ((volumeCasts demoStoreC7w).map Int.natAbs).sum < 2 ^ 53 ∧
    (getPerformanceMetrics demoStoreC7w = .ok
      ⟨intToDecStr ((volumeCasts demoStoreC7w).sum),
       (if (resolvedRows demoStoreC7w).length = 0 then 0
        else jsRoundFrac (((resolvedRows demoStoreC7w).map (fun m => m.durationDays.getD 0)).sum)
          ((resolvedRows demoStoreC7w).length : Int)),
       (((if 0 < demoStoreC7w.markets.length then
            jsRoundFrac (100 * ((resolvedRows demoStoreC7w).length : Int)) (demoStoreC7w.markets.length : Int)
          else jsRoundFrac 0 1) : Int) : Rat) / 100,
       (resolvedRows demoStoreC7w).length⟩ ∧
     (demoStoreC7w.markets.length = 0 →
      Except.map (fun pm => pm.resolutionRate) (getPerformanceMetrics demoStoreC7w) = .ok (0 : Rat))) :=
  ⟨by decide, getPerformanceMetrics_exact demoStoreC7w (by decide)⟩

/-- Store exhibiting the loss of arbitrary precision: one volume beyond the
64-bit range, one resolved market among three. -/
def demoStoreC7 : MarketStore :=
  ⟨[{ address := ("a").data, question := ("q").data, status := some (("active").data),
      volume := some (("99999999999999999999").data) },
    { address := ("b").data, question := ("q").data, status := some resolvedStr },
    { address := ("c").data, question := ("q").data, status := some (("active").data) }], [], []⟩

/-- C7 counterexample: the exact arbitrary-precision volume sum is
`10^20 - 1`, but the code reports `2^63` (the SQLite cast saturates at
`int64Max` and the driver rounds that to the nearest double), and the
resolution rate comes back rounded to `0.33`, not the exact `1/3`. -/
theorem getPerformanceMetrics_not_exact_counterexample :
    specExactVolumeSum demoStoreC7 = 99999999999999999999 ∧
    Except.map (fun pm => pm.totalVolume) (getPerformanceMetrics demoStoreC7)
      = .ok (intToDecStr 9223372036854775808) ∧
    intToDecStr 9223372036854775808 ≠ intToDecStr (specExactVolumeSum demoStoreC7) ∧
    Except.map (fun pm => pm.resolutionRate) (getPerformanceMetrics demoStoreC7)
      = .ok (((33 : Int) : Rat) / 100) ∧
    (((33 : Int) : Rat) / 100) ≠ ((1 : Rat) / 3) := by
  refine ⟨by decide, by rfl, by decide, by rfl, by norm_num⟩

/-- A scheduler task as `Scheduler.start()` sees it: its flags, whether its
action is asynchronous (suspends at an `await` before completing), and its
run counter. -/
structure STask where
  enabled : Bool
  runImmediately : Bool
  suspends : Bool
  runCount : Nat
deriving DecidableEq

/-- Observable events of `Scheduler.start()`, indexed by task position:
the immediate execution being invoked, that execution completing, and the
recurring timer being armed (`scheduleNext`/`setTimeout`). -/
inductive SEv where
  | invoked (i : Nat)
  | completed (i : Nat)
  | armed (i : Nat)
deriving DecidableEq

/-- The events task `i` contributes to the synchronous body of `start()`
(scheduler.js lines 105-120): a disabled task contributes nothing; an
enabled `runImmediately` task has `executeTask` invoked — without `await`,
so a suspending (asynchronous) action does not complete here — and then
`scheduleNext` arms its timer. -/
def taskSyncEvents (i : Nat) (t : STask) : List SEv :=
  if t.enabled then
    (if t.runImmediately then
      SEv.invoked i :: (if t.suspends then [] else [SEv.completed i])
    else []) ++ [SEv.armed i]
  else []

/-- The deferred completion of a suspending immediate execution: its
continuation runs only after `start()`'s synchronous body has finished. -/
def taskDeferredEvents (i : Nat) (t : STask) : List SEv :=
  if t.enabled && t.runImmediately && t.suspends then [SEv.completed i] else []

/-- Concatenate per-task event chunks over the task list, tracking the
position index. -/
def chunkFold (f : Nat → STask → List SEv) : Nat → List STask → List SEv
  | _, [] => []
  | i, t :: ts => f i t ++ chunkFold f (i + 1) ts

/-- The full event trace of `Scheduler.start()` on a non-running scheduler:
the synchronous loop body for every task, then the deferred completions
(the event loop runs them after the synchronous call returns). -/
def startTrace (ts : List STask) : List SEv :=
  chunkFold taskSyncEvents 0 ts ++ chunkFold taskDeferredEvents 0 ts

/-- Scheduler state visible to `start()`. -/
structure SchedulerSt where
  running : Bool
  tasks : List STask
deriving DecidableEq

/-- The `executeTask` bookkeeping performed for each enabled
`runImmediately` task during `start()` (`runCount++`). -/
def bumpImmediate (t : STask) : STask :=
  if t.enabled && t.runImmediately then { t with runCount := t.runCount + 1 } else t

/-- `Scheduler.start()`: `if (this.running) return this;` — otherwise mark
running, fire immediate executions and arm timers, producing the event
trace. -/
def schedStart (st : SchedulerSt) : SchedulerSt × List SEv :=
  if st.running then (st, [])
  else (⟨true, st.tasks.map bumpImmediate⟩, startTrace st.tasks)

/-- Helper: the chunk of the task at position `k` appears inside the folded
trace, with everything else around it. -/
theorem chunkFold_decompose (f : Nat → STask → List SEv) (ts : List STask) (k : Nat) (t : STask)
    (h : ts.get? k = some t) :
    ∀ i, ∃ pre post, chunkFold f i ts = pre ++ f (i + k) t ++ post := by
  induction ts generalizing k with
  | nil => simp at h
  | cons t0 ts ih =>
    intro i
    cases k with
    | zero =>
      simp only [List.get?] at h
      cases h
      exact ⟨[], chunkFold f (i + 1) ts, by simp [chunkFold]⟩
    | succ k =>
      simp only [List.get?] at h
      obtain ⟨pre, post, hp⟩ := ih k h (i + 1)
      refine ⟨f i t0 ++ pre, post, ?_⟩
      rw [chunkFold, hp]
      simp only [List.append_assoc]
      rw [show i + 1 + k = i + (k + 1) by omega]

/-- C6 (amended): for every enabled `runImmediately` task, `start()` invokes
the immediate execution before arming the task's recurring timer; when the
action is fully synchronous the execution also completes before the timer
is armed, but when the action is asynchronous the timer is armed first and
the completion only happens afterwards — `start()` does not await. -/
theorem start_immediate_order (ts : List STask) (k : Nat) (t : STask)
    (h : ts.get? k = some t) (he : t.enabled = true) (hr : t.runImmediately = true) :
    [SEv.invoked k, SEv.armed k].Sublist (startTrace ts) ∧
    (t.suspends = false → [SEv.invoked k, SEv.completed k, SEv.armed k].Sublist (startTrace ts)) ∧
    (t.suspends = true → [SEv.invoked k, SEv.armed k, SEv.completed k].Sublist (startTrace ts)) := by
  obtain ⟨pre, post, hdec⟩ := chunkFold_decompose taskSyncEvents ts k t h 0
  rw [Nat.zero_add] at hdec
  have hsync : ∀ l : List SEv, l.Sublist (taskSyncEvents k t) → l.Sublist (startTrace ts) := by
    intro l hl
    unfold startTrace
    rw [hdec]
    have h1 : l.Sublist (taskSyncEvents k t ++ post) := hl.trans (List.sublist_append_left _ _)
    have h2 : l.Sublist (pre ++ (taskSyncEvents k t ++ post)) := h1.trans (List.sublist_append_right _ _)
    simpa [List.append_assoc] using h2.trans (List.sublist_append_left _ _)
  refine ⟨?_, ?_, ?_⟩
  · apply hsync
    unfold taskSyncEvents
    rw [if_pos he, if_pos hr]
    cases hs : t.suspends
    · simp
    · simp
  · intro hs
    apply hsync
    unfold taskSyncEvents
    rw [if_pos he, if_pos hr, hs]
    simp
  · intro hs
    obtain ⟨dpre, dpost, hddec⟩ := chunkFold_decompose taskDeferredEvents ts k t h 0
    rw [Nat.zero_add] at hddec
    have hia : [SEv.invoked k, SEv.armed k].Sublist (chunkFold taskSyncEvents 0 ts) := by
      rw [hdec]
      have hl : [SEv.invoked k, SEv.armed k].Sublist (taskSyncEvents k t) := by
        unfold taskSyncEvents
        rw [if_pos he, if_pos hr, hs]
        simp
      have h1 := hl.trans (List.sublist_append_left (taskSyncEvents k t) post)
      simpa [List.append_assoc] using h1.trans (List.sublist_append_right pre _)
    have hc : [SEv.completed k].Sublist (chunkFold taskDeferredEvents 0 ts) := by
      rw [hddec]
      have hl : [SEv.completed k].Sublist (taskDeferredEvents k t) := by
        unfold taskDeferredEvents
        rw [he, hr, hs]
        simp
      have h1 := hl.trans (List.sublist_append_left (taskDeferredEvents k t) dpost)
      simpa [List.append_assoc] using h1.trans (List.sublist_append_right dpre _)
    exact hia.append hc

/-- C6 witness: a single enabled synchronous `runImmediately` task invokes
and completes before its timer is armed. -/
theorem start_immediate_order_witness :
    (([⟨true, true, false, 0⟩] : List STask).get? 0 = some ⟨true, true, false, 0⟩) ∧
    ([SEv.invoked 0, SEv.armed 0].Sublist (startTrace [⟨true, true, false, 0⟩]) ∧
     ((false : Bool) = false →
       [SEv.invoked 0, SEv.completed 0, SEv.armed 0].Sublist (startTrace [⟨true, true, false, 0⟩])) ∧
     ((false : Bool) = true →
       [SEv.invoked 0, SEv.armed 0, SEv.completed 0].Sublist (startTrace [⟨true, true, false, 0⟩]))) :=
  ⟨rfl, start_immediate_order [⟨true, true, false, 0⟩] 0 ⟨true, true, false, 0⟩ rfl rfl rfl⟩

/-- C6 counterexample: with an asynchronous (suspending) immediate task the
trace arms the recurring timer before the immediate execution completes, so
the completion never precedes the arming — `start()` fires the task but
does not await it. -/
theorem start_immediate_not_awaited_counterexample :
    (schedStart ⟨false, [⟨true, true, true, 0⟩]⟩).2
      = [SEv.invoked 0, SEv.armed 0, SEv.completed 0] ∧
    ¬ ([SEv.completed 0, SEv.armed 0].Sublist ((schedStart ⟨false, [⟨true, true, true, 0⟩]⟩).2)) := by
  refine ⟨by decide, by decide⟩

/-- C10: calling `start()` on a scheduler that is already running returns
immediately: the state (including every task's `runCount`) is unchanged and
no event — no immediate execution, no timer arming — occurs. -/
theorem schedStart_idempotent_when_running (st : SchedulerSt) (h : st.running = true) :
    schedStart st = (st, []) := by
  unfold schedStart
  rw [h]
  simp

/-- C10 witness: a running scheduler with one task is untouched by a second
`start()`. -/
theorem schedStart_idempotent_when_running_witness :
    schedStart ⟨true, [⟨true, true, false, 3⟩]⟩ = (⟨true, [⟨true, true, false, 3⟩]⟩, []) :=
  schedStart_idempotent_when_running ⟨true, [⟨true, true, false, 3⟩]⟩ rfl

/-- JS `text.includes(keyword)`: contiguous substring test. -/
def includesStr (hay sub : JStr) : Bool := decide (sub <:+: hay)

/-- `URGENCY_KEYWORDS.breaking` (news-scorer.js line 78). -/
def breakingKeywords : List JStr :=
  [("breaking").data, ("just in").data, ("urgent").data, ("alert").data,
   ("confirmed").data, ("arrested").data, ("breached").data]

/-- `URGENCY_KEYWORDS.timely` (news-scorer.js line 79). -/
def timelyKeywords : List JStr :=
  [("announces").data, ("launches").data, ("releases").data, ("proposes").data,
   ("reaches").data, ("exceeds").data, ("surpasses").data]

/-- `determineUrgency` (news-scorer.js lines 155-169): scan the breaking
keywords first, then the timely ones, else evergreen.  `scoreRelevance`
calls it on the lowercased text. -/
def determineUrgency (text : JStr) : JStr :=
  if breakingKeywords.any (fun k => includesStr text k) then ("breaking").data
  else if timelyKeywords.any (fun k => includesStr text k) then ("timely").data
  else ("evergreen").data

/-- C8: breaking indicators dominate — any breaking keyword present yields
`breaking` no matter what else the text contains; with no breaking keyword
a timely keyword yields `timely`; with neither, `evergreen`. -/
theorem determineUrgency_priority (text : JStr) :
    ((∃ k ∈ breakingKeywords, k <:+: text) → determineUrgency text = ("breaking").data) ∧
    ((¬ ∃ k ∈ breakingKeywords, k <:+: text) → (∃ k ∈ timelyKeywords, k <:+: text) →
      determineUrgency text = ("timely").data) ∧
    ((¬ ∃ k ∈ breakingKeywords, k <:+: text) → (¬ ∃ k ∈ timelyKeywords, k <:+: text) →
      determineUrgency text = ("evergreen").data) := by
  have hany : ∀ (ks : List JStr), (ks.any (fun k => includesStr text k) = true)
      ↔ ∃ k ∈ ks, k <:+: text := by
    intro ks
    rw [List.any_eq_true]
    constructor
    · rintro ⟨k, hk, hki⟩
      exact ⟨k, hk, of_decide_eq_true hki⟩
    · rintro ⟨k, hk, hki⟩
      exact ⟨k, hk, decide_eq_true hki⟩
  refine ⟨?_, ?_, ?_⟩
  · intro hb
    unfold determineUrgency
    rw [if_pos ((hany breakingKeywords).mpr hb)]
  · intro hnb ht
    unfold determineUrgency
    rw [if_neg (fun hc => hnb ((hany breakingKeywords).mp hc)),
       if_pos ((hany timelyKeywords).mpr ht)]
  · intro hnb hnt
    unfold determineUrgency
    rw [if_neg (fun hc => hnb ((hany breakingKeywords).mp hc)),
       if_neg (fun hc => hnt ((hany timelyKeywords).mp hc))]

/-- C8 witness: a text containing both "breaking" and the timely indicator
"launches" is classified `breaking`. -/
theorem determineUrgency_priority_witness :
    (∃ k ∈ breakingKeywords, k <:+: (("breaking: acme launches rollup").data)) ∧
    (∃ k ∈ timelyKeywords, k <:+: (("breaking: acme launches rollup").data)) ∧
    determineUrgency (("breaking: acme launches rollup").data) = ("breaking").data :=
  ⟨⟨("breaking").data, by decide, by decide⟩,
   ⟨("launches").data, by decide, by decide⟩,
   (determineUrgency_priority (("breaking: acme launches rollup").data)).1
     ⟨("breaking").data, by decide, by decide⟩⟩
